import Mathlib

/-!
Shallow embedding of the supervisor-matching engine of
`student_supervisor.py` (class `AdvancedSupervisorMatcher`), together with
proofs and refutations of the specified properties.

Modelling conventions:
* Python strings are `List Char` (`Text`); `str.lower` is `Char.toLower`
  mapped over the characters, `pat in s` is substring containment.
* Python floats are modelled as exact rationals `ℚ` (every IEEE double is a
  rational); the claims about scores are stated up to this idealization.
* A Python `dict` field that may be absent (`supervisor['interests']`) is an
  `Option`; accessing a missing key raises `KeyError`, modelled by
  `Except.error`.
* `TfidfVectorizer(stop_words='english').fit_transform` raises
  `ValueError: empty vocabulary` when the two-document corpus contributes no
  vocabulary term at all; otherwise the set of terms with non-zero weight in a
  document is exactly the set of its tokens (length ≥ 2 runs of word
  characters of the lower-cased text) that are not stop words, since every
  tf-idf weight of a present term is positive.  The concrete English stop-word
  list is library data not present in the repository, so the scorer is
  parameterized by the stop-word list `sw`; the theorems hold for every `sw`.
-/

namespace StudentSupervisor

/-- A piece of text, as a list of characters. -/
abbrev Text := List Char

/-- Text of a string literal. -/
def txt (s : String) : Text := s.data

/-- Python `str.lower()`. -/
def lower (t : Text) : Text := t.map Char.toLower

/-- Python substring containment `pat in s`. -/
def containsSub (s pat : Text) : Bool :=
  s.tails.any (fun suffix => pat.isPrefixOf suffix)

/-- The technical-skills taxonomy `self.technical_skills` (category,
keyword list), in source order. -/
def technical_skills_taxonomy : List (Text × List Text) :=
  [ (txt "programming",
      [txt "python", txt "java", txt "c++", txt "r", txt "matlab"]),
    (txt "machine_learning",
      [txt "tensorflow", txt "pytorch", txt "scikit-learn", txt "keras"]),
    (txt "data_analysis",
      [txt "pandas", txt "numpy", txt "data mining", txt "statistical analysis"]),
    (txt "cloud",
      [txt "aws", txt "azure", txt "google cloud", txt "cloud computing"]) ]

/-- The research-methodology taxonomy `self.methodology_terms` (category,
term list), in source order. -/
def methodology_terms : List (Text × List Text) :=
  [ (txt "quantitative",
      [txt "statistical analysis", txt "empirical study", txt "quantitative methods"]),
    (txt "qualitative",
      [txt "qualitative analysis", txt "case study", txt "ethnography"]),
    (txt "mixed_methods",
      [txt "mixed methods", txt "triangulation", txt "multi-method"]),
    (txt "experimental",
      [txt "experimental design", txt "controlled study", txt "randomized trial"]) ]

/-- `extract_technical_skills`: for each taxonomy category, the skills whose
keyword occurs in the lower-cased text; categories with no match are omitted
(the Python `defaultdict` only receives keys on append). -/
def extract_technical_skills (text : Text) : List (Text × List Text) :=
  let text_lower := lower text
  (technical_skills_taxonomy.map
      (fun ct => (ct.1, ct.2.filter (fun skill => containsSub text_lower skill)))).filter
    (fun ct => !ct.2.isEmpty)

/-- The flattened set of found skills:
`set(skill for skills in d.values() for skill in skills)`. -/
def flattenSkills (d : List (Text × List Text)) : Finset Text :=
  ((d.map Prod.snd).flatten).toFinset

/-- The technical-skills overlap score computed inline in
`match_supervisors`: `len(A & B) / max(len(A | B), 1)` on the flattened
skill sets. -/
def technicalScore (student_text supervisor_text : Text) : ℚ :=
  let all_skills := flattenSkills (extract_technical_skills student_text)
  let all_sup_skills := flattenSkills (extract_technical_skills supervisor_text)
  ((all_skills ∩ all_sup_skills).card : ℚ) / (max (all_skills ∪ all_sup_skills).card 1 : ℕ)

/-- `_extract_methodology`: the list of taxonomy categories one of whose
terms occurs in the lower-cased text (each category appended at most once,
in taxonomy order, thanks to the `break`). -/
def extract_methodology (text : Text) : List Text :=
  let text_lower := lower text
  (methodology_terms.filter
      (fun ct => ct.2.any (fun term => containsSub text_lower term))).map Prod.fst

/-- `calculate_methodology_match`: 0.5 if either extracted list is empty,
else `len(set(S) & set(P)) / max(len(S), len(P))`. -/
def calculate_methodology_match (student_desc supervisor_interests : Text) : ℚ :=
  let student_methods := extract_methodology student_desc
  let supervisor_methods := extract_methodology supervisor_interests
  if student_methods = [] ∨ supervisor_methods = [] then 1/2
  else ((student_methods.toFinset ∩ supervisor_methods.toFinset).card : ℚ)
        / (max student_methods.length supervisor_methods.length : ℕ)

/-- A word character of the default `token_pattern` `\w\w+` of
`TfidfVectorizer` (ASCII fragment). -/
def isWordChar (c : Char) : Bool := c.isAlphanum || c = '_'

/-- Tokens of `TfidfVectorizer`: maximal runs of word characters of length at
least 2 in the lower-cased text. -/
def tfidfTokens (t : Text) : List Text :=
  ((lower t).splitOnP (fun c => !isWordChar c)).filter (fun tok => 2 ≤ tok.length)

/-- The set of vocabulary terms a document contributes: its tokens minus the
stop words `sw`.  These are exactly the terms with non-zero tf-idf weight in
the document's row. -/
def tfidfTerms (sw : List Text) (t : Text) : Finset Text :=
  ((tfidfTokens t).filter (fun tok => !sw.contains tok)).toFinset

/-- `calculate_domain_knowledge`: fit the vectorizer on exactly the two
texts, then Jaccard similarity of the non-zero-weight term sets, 0.5 if
either set is empty.  `fit_transform` raises `ValueError` when the joint
vocabulary is empty, before the 0.5 guard is reached. -/
def calculate_domain_knowledge (sw : List Text)
    (student_desc supervisor_interests : Text) : Except String ℚ :=
  let student_terms := tfidfTerms sw student_desc
  let supervisor_terms := tfidfTerms sw supervisor_interests
  if student_terms ∪ supervisor_terms = ∅ then
    Except.error "ValueError: empty vocabulary"
  else if student_terms = ∅ ∨ supervisor_terms = ∅ then Except.ok (1/2)
  else Except.ok (((student_terms ∩ supervisor_terms).card : ℚ)
        / ((student_terms ∪ supervisor_terms).card : ℕ))

/-- The global constant `DOMAIN_WEIGHTS`, a mapping from sub-score name to
weight. -/
def DOMAIN_WEIGHTS : List (Text × ℚ) :=
  [ (txt "research_alignment", 2/5),
    (txt "methodology_match", 3/10),
    (txt "technical_skills", 1/5),
    (txt "domain_knowledge", 1/10) ]

/-- Weight lookup `self.domain_weights[k]` (all keys used by the code are
present). -/
def weightOf (k : Text) : ℚ :=
  (((DOMAIN_WEIGHTS.filter (fun p => p.1 = k)).map Prod.snd).headD 0)

/-- One entry of the result list assembled by `match_supervisors`. -/
structure MatchResult where
  supervisor_name : Text
  final_score : ℚ
  research_alignment : ℚ
  methodology_match : ℚ
  technical_skills : ℚ
  domain_knowledge : ℚ
  matching_skills : Finset Text
  methodology_overlap : List Text
deriving DecidableEq

/-- A supervisor record; `interests = none` models a malformed dict missing
the `'interests'` key. -/
structure Supervisor where
  name : Text
  interests : Option Text
deriving DecidableEq

/-- The per-supervisor body of the `match_supervisors` loop.  `ra` is the
research-alignment oracle (BERT embedding + cosine similarity, an external
model), `sw` the stop-word list of the vectorizer.  Accessing a missing
`'interests'` key raises `KeyError`; a `ValueError` of the domain scorer
propagates. -/
def scoreFor (ra : Text → Text → ℚ) (sw : List Text) (student : Text)
    (sup : Supervisor) : Except String MatchResult :=
  match sup.interests with
  | none => Except.error "KeyError: interests"
  | some interests =>
    let research_score := ra student interests
    let methodology_score := calculate_methodology_match student interests
    let student_skills := extract_technical_skills student
    let supervisor_skills := extract_technical_skills interests
    let all_skills := flattenSkills student_skills
    let all_sup_skills := flattenSkills supervisor_skills
    let technical_score : ℚ :=
      ((all_skills ∩ all_sup_skills).card : ℚ)
        / (max (all_skills ∪ all_sup_skills).card 1 : ℕ)
    match calculate_domain_knowledge sw student interests with
    | Except.error e => Except.error e
    | Except.ok domain_score =>
      Except.ok
        { supervisor_name := sup.name
          final_score :=
            weightOf (txt "research_alignment") * research_score +
            weightOf (txt "methodology_match") * methodology_score +
            weightOf (txt "technical_skills") * technical_score +
            weightOf (txt "domain_knowledge") * domain_score
          research_alignment := research_score
          methodology_match := methodology_score
          technical_skills := technical_score
          domain_knowledge := domain_score
          matching_skills := all_skills ∩ all_sup_skills
          methodology_overlap := extract_methodology interests }

/-- The `results` list built by the loop, in input order; the first raised
exception aborts the whole call. -/
def rawResults (ra : Text → Text → ℚ) (sw : List Text) (student : Text) :
    List Supervisor → Except String (List MatchResult)
  | [] => Except.ok []
  | sup :: rest =>
    match scoreFor ra sw student sup with
    | Except.error e => Except.error e
    | Except.ok r =>
      match rawResults ra sw student rest with
      | Except.error e => Except.error e
      | Except.ok rs => Except.ok (r :: rs)

/-- The comparator of `sorted(results, key=..., reverse=True)`: `x` may be
placed before `y` iff its final score is at least that of `y`. -/
def scoreGE (x y : MatchResult) : Bool := decide (y.final_score ≤ x.final_score)

/-- `match_supervisors`: score every supervisor, then sort the results by
final score, descending and stable (Python `sorted` is a stable merge sort;
`reverse=True` preserves the original order of ties). -/
def match_supervisors (ra : Text → Text → ℚ) (sw : List Text) (student : Text)
    (supervisors : List Supervisor) : Except String (List MatchResult) :=
  match rawResults ra sw student supervisors with
  | Except.error e => Except.error e
  | Except.ok results => Except.ok (results.mergeSort scoreGE)

/-! ### Spec-side definitions, for refinement statements -/

/-- The methodology score as the spec words it (§4.3): with S and P the
extracted category *sets*, 0.5 if either is empty, else `|S ∩ P| / max(|S|, |P|)`. -/
def methodology_match_spec (a b : Text) : ℚ :=
  let S := (extract_methodology a).toFinset
  let P := (extract_methodology b).toFinset
  if S = ∅ ∨ P = ∅ then 1/2
  else ((S ∩ P).card : ℚ) / (max S.card P.card : ℕ)

/-- The flattened set of extracted skill keywords of a text, as the claim
words it: all taxonomy keywords occurring in the lower-cased text. -/
def skills_spec (t : Text) : Finset Text :=
  ((technical_skills_taxonomy.map Prod.snd).flatten.filter
    (fun sk => containsSub (lower t) sk)).toFinset

/-! ### The semantic-similarity scorer over real vectors

`calculate_research_alignment` feeds two BERT embeddings to
`sklearn.metrics.pairwise.cosine_similarity`.  The embedding model is
external; the scorer is modelled for an arbitrary embedding function into
`ℝ`-vectors of an arbitrary fixed dimension.  `cosine_similarity` divides the
dot product by the product of the Euclidean norms (a zero vector yields 0,
matching the `x / 0 = 0` convention). -/

/-- Dot product of two embedding vectors. -/
def dotp {n : ℕ} (a b : Fin n → ℝ) : ℝ := ∑ i, a i * b i

/-- Cosine similarity of two embedding vectors. -/
noncomputable def cosineSim {n : ℕ} (a b : Fin n → ℝ) : ℝ :=
  dotp a b / (Real.sqrt (dotp a a) * Real.sqrt (dotp b b))

/-- `calculate_research_alignment`, for an arbitrary embedding function
`emb` the underlying model may implement. -/
noncomputable def calculate_research_alignment {n : ℕ}
    (emb : Text → (Fin n → ℝ)) (student_desc supervisor_interests : Text) : ℝ :=
  cosineSim (emb student_desc) (emb supervisor_interests)

/-! ### Concrete demonstration inputs, used by the witnesses -/

/-- A constant research-alignment oracle. -/
def ra_demo : Text → Text → ℚ := fun _ _ => 1

/-- A well-formed supervisor record. -/
def sup_demo : Supervisor := ⟨txt "Dr A", some (txt "ml")⟩

/-- The match result of `sup_demo` against student text `"ml"` under
`ra_demo`:  research 1, methodology 1/2 (no methodology terms), technical 0
(no skill keywords), domain 1 (identical single-term texts), final score
`0.4*1 + 0.3*0.5 + 0.2*0 + 0.1*1 = 13/20`. -/
def r_demo : MatchResult :=
  { supervisor_name := txt "Dr A", final_score := 13/20, research_alignment := 1,
    methodology_match := 1/2, technical_skills := 0, domain_knowledge := 1,
    matching_skills := ∅, methodology_overlap := [] }

/-! ### Helper lemmas -/

theorem weightOf_research : weightOf (txt "research_alignment") = 2/5 := rfl

theorem weightOf_methodology : weightOf (txt "methodology_match") = 3/10 := rfl

theorem weightOf_technical : weightOf (txt "technical_skills") = 1/5 := rfl

theorem weightOf_domain : weightOf (txt "domain_knowledge") = 1/10 := rfl

/-- Any successfully scored supervisor carries a final score that is the
`DOMAIN_WEIGHTS`-weighted sum of its four detailed scores. -/
theorem scoreFor_ok_final_score {ra : Text → Text → ℚ} {sw : List Text}
    {student : Text} {sup : Supervisor} {r : MatchResult}
    (h : scoreFor ra sw student sup = Except.ok r) :
    r.final_score = 2/5 * r.research_alignment + 3/10 * r.methodology_match +
      1/5 * r.technical_skills + 1/10 * r.domain_knowledge := by
  obtain ⟨nm, ints⟩ := sup
  cases ints with
  | none => exact absurd h (by simp [scoreFor])
  | some interests =>
    simp only [scoreFor] at h
    cases hd : calculate_domain_knowledge sw student interests with
    | error e => rw [hd] at h; exact absurd h (by simp)
    | ok d =>
      rw [hd] at h
      simp only [Except.ok.injEq] at h
      subst h
      simp [weightOf_research, weightOf_methodology, weightOf_technical, weightOf_domain]

/-- A successful `rawResults` run yields one result per supervisor. -/
theorem rawResults_ok_length {ra : Text → Text → ℚ} {sw : List Text} {student : Text} :
    ∀ {sups : List Supervisor} {rs : List MatchResult},
      rawResults ra sw student sups = Except.ok rs → rs.length = sups.length := by
  intro sups
  induction sups with
  | nil => intro rs h; simp only [rawResults, Except.ok.injEq] at h; subst h; rfl
  | cons hd tl ih =>
    intro rs h
    simp only [rawResults] at h
    cases hs : scoreFor ra sw student hd with
    | error e => rw [hs] at h; cases h
    | ok r =>
      rw [hs] at h
      cases ht : rawResults ra sw student tl with
      | error e => rw [ht] at h; cases h
      | ok rs2 =>
        rw [ht] at h
        simp only [Except.ok.injEq] at h
        subst h
        simp [ih ht]

/-- Every result of a successful `rawResults` run was produced by `scoreFor`
on one of the input supervisors. -/
theorem rawResults_ok_mem {ra : Text → Text → ℚ} {sw : List Text} {student : Text} :
    ∀ {sups : List Supervisor} {rs : List MatchResult},
      rawResults ra sw student sups = Except.ok rs →
      ∀ r ∈ rs, ∃ sup ∈ sups, scoreFor ra sw student sup = Except.ok r := by
  intro sups
  induction sups with
  | nil =>
    intro rs h
    simp only [rawResults, Except.ok.injEq] at h
    subst h
    intro r hr
    cases hr
  | cons hd tl ih =>
    intro rs h
    simp only [rawResults] at h
    cases hs : scoreFor ra sw student hd with
    | error e => rw [hs] at h; cases h
    | ok r0 =>
      rw [hs] at h
      cases ht : rawResults ra sw student tl with
      | error e => rw [ht] at h; cases h
      | ok rs2 =>
        rw [ht] at h
        simp only [Except.ok.injEq] at h
        subst h
        intro r hr
        rcases List.mem_cons.mp hr with hr0 | hr2
        · exact ⟨hd, List.mem_cons_self _ _, hr0 ▸ hs⟩
        · obtain ⟨sup, hsup, hok⟩ := ih ht r hr2
          exact ⟨sup, List.mem_cons_of_mem _ hsup, hok⟩

/-- A successful `match_supervisors` run is the stable merge sort of a
successful `rawResults` run. -/
theorem match_supervisors_ok {ra : Text → Text → ℚ} {sw : List Text}
    {student : Text} {sups : List Supervisor} {res : List MatchResult}
    (h : match_supervisors ra sw student sups = Except.ok res) :
    ∃ rs, rawResults ra sw student sups = Except.ok rs ∧ res = rs.mergeSort scoreGE := by
  simp only [match_supervisors] at h
  cases hr : rawResults ra sw student sups with
  | error e => rw [hr] at h; cases h
  | ok rs =>
    rw [hr] at h
    simp only [Except.ok.injEq] at h
    exact ⟨rs, rfl, h.symm⟩

theorem scoreGE_trans : ∀ a b c : MatchResult, scoreGE a b → scoreGE b c → scoreGE a c := by
  intro a b c hab hbc
  simp only [scoreGE, decide_eq_true_eq] at *
  exact le_trans hbc hab

theorem scoreGE_total : ∀ a b : MatchResult, scoreGE a b || scoreGE b a := by
  intro a b
  simp only [scoreGE, Bool.or_eq_true, decide_eq_true_eq]
  exact le_total b.final_score a.final_score

/-! ### The claims -/

/-- C1: every `MatchResult` produced by `match_supervisors` has
`final_score` equal to the `DOMAIN_WEIGHTS`-weighted sum
`0.4 * research_alignment + 0.3 * methodology_match + 0.2 * technical_skills
+ 0.1 * domain_knowledge` of its detailed scores (exactly, in `ℚ`). -/
theorem final_score_is_weighted_sum (ra : Text → Text → ℚ) (sw : List Text)
    (student : Text) (sups : List Supervisor) (res : List MatchResult)
    (h : match_supervisors ra sw student sups = Except.ok res) :
    ∀ r ∈ res, r.final_score = 2/5 * r.research_alignment +
      3/10 * r.methodology_match + 1/5 * r.technical_skills +
      1/10 * r.domain_knowledge := by
  obtain ⟨rs, hraw, hres⟩ := match_supervisors_ok h
  intro r hr
  rw [hres] at hr
  obtain ⟨sup, _, hok⟩ := rawResults_ok_mem hraw r (List.mem_mergeSort.mp hr)
  exact scoreFor_ok_final_score hok

/-- Witness for C1 at a concrete input. -/
theorem final_score_is_weighted_sum_witness :
    match_supervisors ra_demo [] (txt "ml") [sup_demo] = Except.ok [r_demo] ∧
    r_demo.final_score = 2/5 * r_demo.research_alignment +
      3/10 * r_demo.methodology_match + 1/5 * r_demo.technical_skills +
      1/10 * r_demo.domain_knowledge := by
  have hmatch : match_supervisors ra_demo [] (txt "ml") [sup_demo] = Except.ok [r_demo] := by
    have hscore : scoreFor ra_demo [] (txt "ml") sup_demo = Except.ok r_demo := by
      simp only [scoreFor, sup_demo]
      rw [show calculate_domain_knowledge [] (txt "ml") (txt "ml") = Except.ok 1 by
        unfold calculate_domain_knowledge
        rw [show tfidfTerms [] (txt "ml") = {txt "ml"} from rfl]
        norm_num]
      rw [show calculate_methodology_match (txt "ml") (txt "ml") = 1/2 by
        unfold calculate_methodology_match
        rw [show extract_methodology (txt "ml") = [] from rfl]
        norm_num]
      rw [show (flattenSkills (extract_technical_skills (txt "ml")) ∩
            flattenSkills (extract_technical_skills (txt "ml"))).card = 0 from rfl,
          show ((flattenSkills (extract_technical_skills (txt "ml")) ∪
            flattenSkills (extract_technical_skills (txt "ml"))).card = 0) from rfl]
      simp only [Except.ok.injEq, r_demo, ra_demo, MatchResult.mk.injEq,
        weightOf_research, weightOf_methodology, weightOf_technical, weightOf_domain]
      norm_num
      exact ⟨rfl, rfl⟩
    simp only [match_supervisors, rawResults, hscore, List.mergeSort_singleton]
  exact ⟨hmatch,
    final_score_is_weighted_sum ra_demo [] (txt "ml") [sup_demo] [r_demo] hmatch
      r_demo (List.mem_singleton_self _)⟩

/-- Stability of the merge sort under the tie-respecting predicate
"final score equals `q`": sorting does not reorder a tie class. -/
theorem mergeSort_filter_score_eq (rs : List MatchResult) (q : ℚ) :
    (rs.mergeSort scoreGE).filter (fun r => decide (r.final_score = q)) =
      rs.filter (fun r => decide (r.final_score = q)) := by
  set p : MatchResult → Bool := fun r => decide (r.final_score = q) with hp
  have hmemp : ∀ r ∈ rs.filter p, p r = true := fun r hr => (List.mem_filter.mp hr).2
  have hpw : (rs.filter p).Pairwise (fun a b => scoreGE a b) := by
    apply List.pairwise_of_forall_mem_list
    intro a ha b hb
    have ha2 : a.final_score = q := by simpa [hp] using hmemp a ha
    have hb2 : b.final_score = q := by simpa [hp] using hmemp b hb
    simp [scoreGE, ha2, hb2]
  have h1 : List.Sublist (rs.filter p) (rs.mergeSort scoreGE) :=
    List.sublist_mergeSort scoreGE_trans scoreGE_total hpw (List.filter_sublist rs)
  have h2 : (rs.filter p).filter p = rs.filter p := List.filter_eq_self.mpr hmemp
  have h3 : List.Sublist (rs.filter p) ((rs.mergeSort scoreGE).filter p) := by
    have := List.Sublist.filter p h1
    rwa [h2] at this
  have h4 : ((rs.mergeSort scoreGE).filter p).length = (rs.filter p).length :=
    ((List.mergeSort_perm rs scoreGE).filter p).length_eq
  exact (List.Sublist.eq_of_length h3 h4.symm).symm

/-- C2: the sequence returned by `match_supervisors` is sorted in descending
order of `final_score`, and the sort is stable: within any class of equal
final scores, the results appear in their original (input) order, i.e. the
order they have in the pre-sort `rawResults` list. -/
theorem match_supervisors_sorted_and_stable (ra : Text → Text → ℚ) (sw : List Text)
    (student : Text) (sups : List Supervisor) (rs res : List MatchResult)
    (hraw : rawResults ra sw student sups = Except.ok rs)
    (h : match_supervisors ra sw student sups = Except.ok res) :
    res.Pairwise (fun x y => y.final_score ≤ x.final_score) ∧
    ∀ q : ℚ, res.filter (fun r => decide (r.final_score = q)) =
      rs.filter (fun r => decide (r.final_score = q)) := by
  obtain ⟨rs2, hraw2, hres⟩ := match_supervisors_ok h
  rw [hraw] at hraw2
  cases hraw2
  subst hres
  constructor
  · exact (List.sorted_mergeSort scoreGE_trans scoreGE_total rs).imp
      (fun hb => by simpa [scoreGE] using hb)
  · exact fun q => mergeSort_filter_score_eq rs q

/-- Witness for C2 at a concrete input. -/
theorem match_supervisors_sorted_and_stable_witness :
    rawResults ra_demo [] (txt "ml") [sup_demo] = Except.ok [r_demo] ∧
    match_supervisors ra_demo [] (txt "ml") [sup_demo] = Except.ok [r_demo] ∧
    ([r_demo].Pairwise (fun x y => y.final_score ≤ x.final_score) ∧
      ∀ q : ℚ, [r_demo].filter (fun r => decide (r.final_score = q)) =
        [r_demo].filter (fun r => decide (r.final_score = q))) := by
  have hscore : scoreFor ra_demo [] (txt "ml") sup_demo = Except.ok r_demo := by
    simp only [scoreFor, sup_demo]
    rw [show calculate_domain_knowledge [] (txt "ml") (txt "ml") = Except.ok 1 by
      unfold calculate_domain_knowledge
      rw [show tfidfTerms [] (txt "ml") = {txt "ml"} from rfl]
      norm_num]
    rw [show calculate_methodology_match (txt "ml") (txt "ml") = 1/2 by
      unfold calculate_methodology_match
      rw [show extract_methodology (txt "ml") = [] from rfl]
      norm_num]
    rw [show (flattenSkills (extract_technical_skills (txt "ml")) ∩
          flattenSkills (extract_technical_skills (txt "ml"))).card = 0 from rfl,
        show ((flattenSkills (extract_technical_skills (txt "ml")) ∪
          flattenSkills (extract_technical_skills (txt "ml"))).card = 0) from rfl]
    simp only [Except.ok.injEq, r_demo, ra_demo, MatchResult.mk.injEq,
      weightOf_research, weightOf_methodology, weightOf_technical, weightOf_domain]
    norm_num
    exact ⟨rfl, rfl⟩
  have hraw : rawResults ra_demo [] (txt "ml") [sup_demo] = Except.ok [r_demo] := by
    simp only [rawResults, hscore]
  have hmatch : match_supervisors ra_demo [] (txt "ml") [sup_demo] = Except.ok [r_demo] := by
    simp only [match_supervisors, hraw, List.mergeSort_singleton]
  exact ⟨hraw, hmatch,
    match_supervisors_sorted_and_stable ra_demo [] (txt "ml") [sup_demo]
      [r_demo] [r_demo] hraw hmatch⟩

/-- C3: whenever `match_supervisors` returns a result list, its length
equals the number of input supervisors; and the empty supervisor list yields
the empty result with no error raised. -/
theorem match_supervisors_length_and_empty (ra : Text → Text → ℚ) (sw : List Text)
    (student : Text) :
    (∀ sups res, match_supervisors ra sw student sups = Except.ok res →
      res.length = sups.length) ∧
    match_supervisors ra sw student [] = Except.ok [] := by
  constructor
  · intro sups res h
    obtain ⟨rs, hraw, hres⟩ := match_supervisors_ok h
    subst hres
    rw [List.length_mergeSort]
    exact rawResults_ok_length hraw
  · simp [match_supervisors, rawResults, List.mergeSort_nil]

/-- Witness for C3 at a concrete input. -/
theorem match_supervisors_length_and_empty_witness :
    match_supervisors ra_demo [] (txt "ml") [sup_demo] = Except.ok [r_demo] ∧
    ([r_demo] : List MatchResult).length = [sup_demo].length ∧
    match_supervisors ra_demo [] (txt "ml") [] = Except.ok [] := by
  have hscore : scoreFor ra_demo [] (txt "ml") sup_demo = Except.ok r_demo := by
    simp only [scoreFor, sup_demo]
    rw [show calculate_domain_knowledge [] (txt "ml") (txt "ml") = Except.ok 1 by
      unfold calculate_domain_knowledge
      rw [show tfidfTerms [] (txt "ml") = {txt "ml"} from rfl]
      norm_num]
    rw [show calculate_methodology_match (txt "ml") (txt "ml") = 1/2 by
      unfold calculate_methodology_match
      rw [show extract_methodology (txt "ml") = [] from rfl]
      norm_num]
    rw [show (flattenSkills (extract_technical_skills (txt "ml")) ∩
          flattenSkills (extract_technical_skills (txt "ml"))).card = 0 from rfl,
        show ((flattenSkills (extract_technical_skills (txt "ml")) ∪
          flattenSkills (extract_technical_skills (txt "ml"))).card = 0) from rfl]
    simp only [Except.ok.injEq, r_demo, ra_demo, MatchResult.mk.injEq,
      weightOf_research, weightOf_methodology, weightOf_technical, weightOf_domain]
    norm_num
    exact ⟨rfl, rfl⟩
  have hmatch : match_supervisors ra_demo [] (txt "ml") [sup_demo] = Except.ok [r_demo] := by
    simp only [match_supervisors, rawResults, hscore, List.mergeSort_singleton]
  exact ⟨hmatch,
    (match_supervisors_length_and_empty ra_demo [] (txt "ml")).1 [sup_demo] [r_demo] hmatch,
    (match_supervisors_length_and_empty ra_demo [] (txt "ml")).2⟩

/-- C10: the methodology-match score is symmetric in its two texts. -/
theorem calculate_methodology_match_symm (a b : Text) :
    calculate_methodology_match a b = calculate_methodology_match b a := by
  unfold calculate_methodology_match
  by_cases hA : extract_methodology a = [] <;> by_cases hB : extract_methodology b = [] <;>
    simp [hA, hB, Finset.inter_comm, Nat.max_comm]

/-- The extracted methodology category list never repeats a category. -/
theorem extract_methodology_nodup (t : Text) : (extract_methodology t).Nodup := by
  unfold extract_methodology
  have h2 : (methodology_terms.map Prod.fst).Nodup := by decide
  exact h2.sublist (List.Sublist.map _ (List.filter_sublist _))

/-- C4: the methodology-match score is 0.5 when either extracted category
set is empty and `|S ∩ P| / max(|S|, |P|)` on the sets otherwise, and it
always lies in [0, 1]. -/
theorem methodology_match_spec_and_range (a b : Text) :
    calculate_methodology_match a b = methodology_match_spec a b ∧
    0 ≤ calculate_methodology_match a b ∧ calculate_methodology_match a b ≤ 1 := by
  have hca : (extract_methodology a).toFinset.card = (extract_methodology a).length :=
    List.toFinset_card_of_nodup (extract_methodology_nodup a)
  have hcb : (extract_methodology b).toFinset.card = (extract_methodology b).length :=
    List.toFinset_card_of_nodup (extract_methodology_nodup b)
  by_cases hA : extract_methodology a = [] <;> by_cases hB : extract_methodology b = []
  case pos =>
    unfold calculate_methodology_match methodology_match_spec
    simp [hA, hB]
    norm_num
  case neg =>
    unfold calculate_methodology_match methodology_match_spec
    simp [hA, hB]
    norm_num
  case pos =>
    unfold calculate_methodology_match methodology_match_spec
    simp [hA, hB]
    norm_num
  case neg =>
    have hlen : 0 < max (extract_methodology a).length (extract_methodology b).length :=
      lt_max_of_lt_left (List.length_pos.mpr hA)
    have hcard : ((extract_methodology a).toFinset ∩ (extract_methodology b).toFinset).card ≤
        max (extract_methodology a).length (extract_methodology b).length := by
      calc ((extract_methodology a).toFinset ∩ (extract_methodology b).toFinset).card
          ≤ (extract_methodology a).toFinset.card :=
            Finset.card_le_card Finset.inter_subset_left
        _ = (extract_methodology a).length := hca
        _ ≤ _ := le_max_left _ _
    refine ⟨?_, ?_, ?_⟩
    · unfold calculate_methodology_match methodology_match_spec
      simp [hA, hB, List.toFinset_eq_empty_iff, hca, hcb]
    · unfold calculate_methodology_match
      simp only [hA, hB, false_or, if_neg, or_self]
      positivity
    · unfold calculate_methodology_match
      simp only [hA, hB, or_self, if_neg, not_false_iff]
      rw [div_le_one (by exact_mod_cast hlen)]
      exact_mod_cast hcard

/-- Flattening per-category filtered matches (with empty categories dropped)
is the same as filtering the flat keyword list. -/
theorem flatten_filter_eq (L : List (Text × List Text)) (p : Text → Bool) :
    ((((L.map (fun ct => (ct.1, ct.2.filter p))).filter
        (fun ct => !ct.2.isEmpty)).map Prod.snd).flatten)
      = ((L.map Prod.snd).flatten).filter p := by
  induction L with
  | nil => rfl
  | cons hd tl ih =>
    simp only [List.map_cons, List.filter_cons, List.flatten_cons, List.filter_append]
    by_cases h : (hd.2.filter p).isEmpty
    · have h0 : hd.2.filter p = [] := List.isEmpty_iff.mp h
      simp [h, h0, ih]
    · simp [h, ih]

/-- The flattened skill set of a text is the set of taxonomy keywords
occurring in its lower-cased form. -/
theorem flattenSkills_extract (t : Text) :
    flattenSkills (extract_technical_skills t) = skills_spec t := by
  unfold flattenSkills extract_technical_skills skills_spec
  rw [flatten_filter_eq]

/-- C5: the technical-skills score is `|A ∩ B| / max(|A ∪ B|, 1)` on the
flattened sets of extracted skill keywords; it is 0 when both sets are
empty, 0 when the texts share no skill keyword, and 1 when the two sets are
identical and non-empty. -/
theorem technicalScore_spec_and_boundaries (a b : Text) :
    technicalScore a b = ((skills_spec a ∩ skills_spec b).card : ℚ)
        / (max (skills_spec a ∪ skills_spec b).card 1 : ℕ) ∧
    (skills_spec a = ∅ ∧ skills_spec b = ∅ → technicalScore a b = 0) ∧
    (skills_spec a ∩ skills_spec b = ∅ → technicalScore a b = 0) ∧
    (skills_spec a = skills_spec b → skills_spec a ≠ ∅ → technicalScore a b = 1) := by
  have heq : technicalScore a b = ((skills_spec a ∩ skills_spec b).card : ℚ)
      / (max (skills_spec a ∪ skills_spec b).card 1 : ℕ) := by
    unfold technicalScore
    rw [flattenSkills_extract, flattenSkills_extract]
  refine ⟨heq, ?_, ?_, ?_⟩
  · rintro ⟨hA, hB⟩
    rw [heq, hA, hB]
    simp
  · intro hAB
    rw [heq, hAB]
    simp
  · intro hAB hne
    rw [heq, hAB, Finset.inter_self, Finset.union_self]
    have hpos : 0 < (skills_spec b).card :=
      Finset.card_pos.mpr (Finset.nonempty_of_ne_empty (hAB ▸ hne))
    rw [max_eq_left hpos]
    exact div_self (by exact_mod_cast hpos.ne.symm)

/-- Witness for C5: `"python"` against itself shares the non-empty skill set
`{python}`, score 1; `"python"` against `"tensorflow"` shares no keyword,
score 0. -/
theorem technicalScore_spec_witness :
    (skills_spec (txt "python") = skills_spec (txt "python") ∧
      skills_spec (txt "python") ≠ ∅ ∧
      technicalScore (txt "python") (txt "python") = 1) ∧
    (skills_spec (txt "python") ∩ skills_spec (txt "tensorflow") = ∅ ∧
      technicalScore (txt "python") (txt "tensorflow") = 0) := by
  refine ⟨⟨rfl, by decide, ?_⟩, ⟨by decide, ?_⟩⟩
  · exact (technicalScore_spec_and_boundaries (txt "python") (txt "python")).2.2.2
      rfl (by decide)
  · exact (technicalScore_spec_and_boundaries (txt "python") (txt "tensorflow")).2.2.1
      (by decide)

/-- C6 (code bug): with an empty supervisor interests text the methodology
score is indeed the neutral 0.5, but when the student text contributes no
vocabulary term either (e.g. it is empty too), the domain scorer raises
`ValueError: empty vocabulary` inside `fit_transform`, before its own
neutral-0.5 guard is reachable, and the error escapes `match_supervisors` —
for every stop-word list and every research-alignment oracle. -/
theorem empty_interests_raises (ra : Text → Text → ℚ) (sw : List Text) (nm : Text) :
    calculate_methodology_match [] [] = 1/2 ∧
    calculate_domain_knowledge sw [] [] = Except.error "ValueError: empty vocabulary" ∧
    match_supervisors ra sw [] [⟨nm, some []⟩] = Except.error "ValueError: empty vocabulary" := by
  refine ⟨?_, rfl, ?_⟩
  · unfold calculate_methodology_match
    rw [show extract_methodology [] = [] from rfl]
    norm_num
  · simp only [match_supervisors, rawResults, scoreFor]
    rw [show calculate_domain_knowledge sw [] [] =
      Except.error "ValueError: empty vocabulary" from rfl]

/-- C7 counterexample: the claim that `match_supervisors` absorbs a
supervisor record missing the `interests` field and still returns a complete
ranked list is false: at a concrete input with one malformed record the call
returns a `KeyError` error, not a list. -/
theorem missing_interests_counterexample :
    ¬ (∀ (ra : Text → Text → ℚ) (sw : List Text) (student : Text)
        (sups : List Supervisor),
        (∃ sup ∈ sups, sup.interests = none) →
        ∃ res, match_supervisors ra sw student sups = Except.ok res ∧
          res.length = sups.length) := by
  intro h
  obtain ⟨res, hres, -⟩ :=
    h (fun _ _ => 1) [] (txt "ml") [⟨txt "Dr A", none⟩]
      ⟨⟨txt "Dr A", none⟩, List.mem_singleton_self _, rfl⟩
  rw [show match_supervisors (fun _ _ => 1) [] (txt "ml") [⟨txt "Dr A", none⟩]
      = Except.error "KeyError: interests" from rfl] at hres
  cases hres

/-- A `rawResults` run over a list containing a malformed record fails. -/
theorem rawResults_error_of_missing (ra : Text → Text → ℚ) (sw : List Text)
    (student : Text) :
    ∀ sups : List Supervisor, (∃ sup ∈ sups, sup.interests = none) →
      ∃ e, rawResults ra sw student sups = Except.error e := by
  intro sups
  induction sups with
  | nil => rintro ⟨sup, hmem, -⟩; cases hmem
  | cons hd tl ih =>
    rintro ⟨sup, hmem, hnone⟩
    cases hs : scoreFor ra sw student hd with
    | error e => exact ⟨e, by simp [rawResults, hs]⟩
    | ok r =>
      have hhd : hd.interests ≠ none := by
        intro hne
        obtain ⟨nm, ints⟩ := hd
        simp only at hne
        subst hne
        simp [scoreFor] at hs
      rcases List.mem_cons.mp hmem with rfl | hmem2
      · exact absurd hnone hhd
      · obtain ⟨e, he⟩ := ih ⟨sup, hmem2, hnone⟩
        exact ⟨e, by simp [rawResults, hs, he]⟩

/-- C7 amended: a supervisor record missing the `interests` field makes
`match_supervisors` raise (a `KeyError`, or an earlier per-supervisor error):
the caller receives an error, never a ranked list. -/
theorem missing_interests_propagates (ra : Text → Text → ℚ) (sw : List Text)
    (student : Text) (sups : List Supervisor)
    (h : ∃ sup ∈ sups, sup.interests = none) :
    ∃ e, match_supervisors ra sw student sups = Except.error e := by
  obtain ⟨e, he⟩ := rawResults_error_of_missing ra sw student sups h
  exact ⟨e, by simp [match_supervisors, he]⟩

/-- Witness for the amended C7 at a concrete input. -/
theorem missing_interests_propagates_witness :
    (∃ sup ∈ [(⟨txt "Dr A", none⟩ : Supervisor)], sup.interests = none) ∧
    ∃ e, match_supervisors ra_demo [] (txt "ml") [⟨txt "Dr A", none⟩] =
      Except.error e :=
  ⟨⟨⟨txt "Dr A", none⟩, List.mem_singleton_self _, rfl⟩,
    missing_interests_propagates ra_demo [] (txt "ml") [⟨txt "Dr A", none⟩]
      ⟨⟨txt "Dr A", none⟩, List.mem_singleton_self _, rfl⟩⟩

/-- C9 counterexample: identical student and supervisor texts do not always
give domain knowledge 1.0: on two empty texts the vectorizer raises
`ValueError: empty vocabulary` instead (for any stop-word list; shown at the
empty one). -/
theorem domain_knowledge_identical_counterexample :
    ¬ (∀ (sw : List Text) (t : Text),
        calculate_domain_knowledge sw t t = Except.ok 1) := by
  intro h
  have h0 := h [] []
  rw [show calculate_domain_knowledge [] [] [] =
      Except.error "ValueError: empty vocabulary" from rfl] at h0
  cases h0

/-- C9 amended: whenever the text contributes at least one vocabulary term,
the domain-knowledge score of a text against itself is exactly 1. -/
theorem domain_knowledge_identical (sw : List Text) (t : Text)
    (h : tfidfTerms sw t ≠ ∅) :
    calculate_domain_knowledge sw t t = Except.ok 1 := by
  unfold calculate_domain_knowledge
  simp only [Finset.union_self, Finset.inter_self]
  rw [if_neg h, if_neg (by simpa using h)]
  have hpos : 0 < (tfidfTerms sw t).card :=
    Finset.card_pos.mpr (Finset.nonempty_of_ne_empty h)
  rw [div_self (by exact_mod_cast hpos.ne.symm)]

/-- Witness for the amended C9 at a concrete input. -/
theorem domain_knowledge_identical_witness :
    tfidfTerms [] (txt "ml") ≠ ∅ ∧
    calculate_domain_knowledge [] (txt "ml") (txt "ml") = Except.ok 1 :=
  ⟨by decide, domain_knowledge_identical [] (txt "ml") (by decide)⟩

/-- Cauchy-Schwarz for the embedding dot product. -/
theorem abs_dotp_le {n : ℕ} (a b : Fin n → ℝ) :
    |dotp a b| ≤ Real.sqrt (dotp a a) * Real.sqrt (dotp b b) := by
  have hsq : ∀ c : Fin n → ℝ, dotp c c = ∑ i, c i ^ 2 := by
    intro c
    unfold dotp
    exact Finset.sum_congr rfl fun i _ => (sq (c i)).symm
  rw [abs_le]
  constructor
  · have h := Real.sum_mul_le_sqrt_mul_sqrt Finset.univ (fun i => -a i) b
    have e1 : (∑ i, (-a i) * b i) = -(∑ i, a i * b i) := by
      rw [← Finset.sum_neg_distrib]
      exact Finset.sum_congr rfl fun i _ => by ring
    have e2 : (∑ i, (-a i) ^ 2) = ∑ i, a i ^ 2 :=
      Finset.sum_congr rfl fun i _ => by ring
    rw [e1, e2] at h
    rw [hsq a, hsq b]
    unfold dotp
    linarith
  · have h := Real.sum_mul_le_sqrt_mul_sqrt Finset.univ a b
    rw [hsq a, hsq b]
    exact h

/-- C8 counterexample: the research-alignment score is not always in [0, 1]:
an embedding mapping the two texts to opposite one-dimensional vectors gives
cosine similarity -1. -/
theorem research_alignment_range_counterexample :
    ¬ (∀ (n : ℕ) (emb : Text → (Fin n → ℝ)) (a b : Text),
        0 ≤ calculate_research_alignment emb a b ∧
        calculate_research_alignment emb a b ≤ 1) := by
  intro h
  have h0 := (h 1 (fun t => fun _ : Fin 1 => if t = [] then (1 : ℝ) else -1) []
    (txt "x")).1
  have hval : calculate_research_alignment
      (fun t => fun _ : Fin 1 => if t = [] then (1 : ℝ) else -1) [] (txt "x") = -1 := by
    unfold calculate_research_alignment cosineSim dotp
    norm_num [Fin.sum_univ_one, txt, Real.sqrt_one]
  rw [hval] at h0
  linarith

/-- C8 amended: for every embedding the model may produce, the
research-alignment score lies in [-1, 1] (cosine similarity is only clipped
to [0, 1] in the spec's reading, not in the code). -/
theorem research_alignment_in_unit_ball {n : ℕ} (emb : Text → (Fin n → ℝ))
    (a b : Text) :
    -1 ≤ calculate_research_alignment emb a b ∧
    calculate_research_alignment emb a b ≤ 1 := by
  unfold calculate_research_alignment cosineSim
  set u := emb a
  set v := emb b
  set D := Real.sqrt (dotp u u) * Real.sqrt (dotp v v) with hD
  have hD0 : 0 ≤ D :=
    mul_nonneg (Real.sqrt_nonneg _) (Real.sqrt_nonneg _)
  rcases eq_or_lt_of_le hD0 with hzero | hpos
  · rw [← hzero, div_zero]
    norm_num
  · have habs := abs_dotp_le u v
    rw [← hD] at habs
    constructor
    · rw [le_div_iff₀ hpos]
      nlinarith [abs_le.mp habs]
    · rw [div_le_one hpos]
      exact (abs_le.mp habs).2

/-- Supporting fact for the C6 code-bug verdict: the neutral fallbacks do
work as documented whenever the student text contributes at least one
vocabulary term — empty supervisor interests then give methodology 0.5 and
domain knowledge 0.5 with no error.  Only the empty-vocabulary corner
raises. -/
theorem empty_interests_neutral (sw : List Text) (s : Text)
    (h : tfidfTerms sw s ≠ ∅) :
    calculate_methodology_match s [] = 1/2 ∧
    calculate_domain_knowledge sw s [] = Except.ok (1/2) := by
  constructor
  · unfold calculate_methodology_match
    rw [show extract_methodology [] = [] from rfl]
    simp
  · unfold calculate_domain_knowledge
    rw [show tfidfTerms sw [] = ∅ from rfl]
    simp only [Finset.union_empty, Finset.inter_empty]
    rw [if_neg h]
    simp

end StudentSupervisor
